import Mathlib

/-
Shallow embedding of the pi_file repository core:
- SafeFile and the open-file registry (src/file/src/lib.rs)
- AsyncStore and its replay loader (src/rt_store/src/lib.rs)

Machine bytes are modelled as Nat, byte strings as List Nat, std::io::Error
values as opaque Nat codes that are only moved around.  Concurrency-dependent
observations (the buffer seen after acquiring a lock, the registry table seen
on re-check, the outcome of a raw I/O call or a log commit) are explicit
parameters of the embedded operations, so each code path is a pure function
of what the surrounding interleaving supplied to it.
-/

/-- Error codes standing for std::io::Error values; the code never inspects
them, only propagates them. -/
abbrev Err := Nat

/-- Open modes of the raw async_file collaborator.  SafeFile::open only
distinguishes TruncateWrite from everything else. -/
inductive AsyncFileOptions
  | OnlyRead
  | OnlyWrite
  | OnlyAppend
  | ReadAppend
  | ReadWrite
  | TruncateWrite
deriving DecidableEq

/-- LockType from src/file/src/lib.rs: Rw wraps an RwLock (shared readers,
one writer), Lock wraps a Mutex (full serialization). -/
inductive LockType
  | Rw
  | Lock
deriving DecidableEq

/-- SafeFile::open picks the lock variant from the options
(src/file/src/lib.rs lines 101-104): TruncateWrite gets the Mutex,
every other mode the RwLock. -/
def lockTypeOf : AsyncFileOptions → LockType
  | AsyncFileOptions.TruncateWrite => LockType.Lock
  | _ => LockType.Rw

/-- The versioned write buffer of InnerSafeFile: (latest bytes, generation).
Generation 0 means durable, nonzero means staged but not yet flushed. -/
structure Buff where
  bytes : List Nat
  gen : Nat
deriving DecidableEq

/-- Result and observable effects of one SafeFile::read call:
the returned bytes or error, whether a raw file read was issued, and
whether the per-file lock was acquired. -/
structure ReadOutcome where
  result : Except Err (List Nat)
  rawIssued : Bool
  lockTaken : Bool

/-- SafeFile::read (src/file/src/lib.rs lines 130-159).  `buff` is the write
buffer snapshot taken before locking, `rawRead pos len` the raw file's read.
In the Lock (truncate-write) arm the code tests `data.len() > 0` on the
snapshotted buffer bytes and then returns an empty vector
(`Ok(Vec::from([]))`, marked `TODO .slice(pos, pos + usize)` in the source);
otherwise it issues the raw read. -/
def safeRead (lt : LockType) (buff : Buff)
    (rawRead : Nat → Nat → Except Err (List Nat)) (pos len : Nat) : ReadOutcome :=
  if len = 0 then ⟨Except.ok [], false, false⟩
  else
    match lt with
    | LockType.Lock =>
      let data := buff.bytes
      if data.length > 0 then ⟨Except.ok [], false, true⟩
      else ⟨rawRead pos len, true, true⟩
    | LockType.Rw => ⟨rawRead pos len, true, true⟩

/-- The staging step of SafeFile::write in the Lock arm
(src/file/src/lib.rs lines 169-174): replace the buffer bytes and
increment the generation. -/
def stageWrite (buf : List Nat) (b : Buff) : Buff :=
  ⟨buf, b.gen + 1⟩

/-- Result and observable effects of the flush phase of an exclusive write:
the returned count or error, the raw write issued (position and bytes) if
any, and whether the generation was reset to 0. -/
structure FlushOutcome where
  result : Except Err Nat
  rawArgs : Option (Nat × List Nat)
  resetGen : Bool

/-- The flush phase of SafeFile::write in the Lock arm
(src/file/src/lib.rs lines 175-195), run after the serializer is acquired.
`acq` is the buffer (bytes, generation) re-read at that point, `postGen` the
generation found when re-acquiring the buffer after a successful raw write.
If the generation is 0 the data already landed and the call short-circuits
with the buffer length; otherwise it raw-writes the buffer bytes and, on
success, resets the generation to 0 exactly when it still equals the one
observed before the flush. -/
def exclusiveFlush (pos : Nat) (acq : Buff)
    (rawWrite : Nat → List Nat → Except Err Nat) (postGen : Nat) : FlushOutcome :=
  if acq.gen = 0 then ⟨Except.ok acq.bytes.length, none, false⟩
  else
    match rawWrite pos acq.bytes with
    | Except.ok r => ⟨Except.ok r, some (pos, acq.bytes), decide (postGen = acq.gen)⟩
    | Except.error e => ⟨Except.error e, some (pos, acq.bytes), false⟩

/-- Result and observable effects of one SafeFile::write call. -/
structure WriteOutcome where
  result : Except Err Nat
  staged : Option Buff
  rawArgs : Option (Nat × List Nat)
  resetGen : Bool
  lockTaken : Bool

/-- SafeFile::write (src/file/src/lib.rs lines 162-202).  `b0` is the buffer
at staging time, `acq` the buffer re-read after acquiring the serializer,
`postGen` the generation found after a successful raw write.  Empty bytes
return Ok 0 immediately; the Rw arm raw-writes the caller's bytes under the
write lock; the Lock arm stages then flushes. -/
def safeWrite (lt : LockType) (pos : Nat) (buf : List Nat) (b0 : Buff)
    (acq : Buff) (rawWrite : Nat → List Nat → Except Err Nat) (postGen : Nat) :
    WriteOutcome :=
  if buf.length = 0 then ⟨Except.ok 0, none, none, false, false⟩
  else
    match lt with
    | LockType.Lock =>
      let o := exclusiveFlush pos acq rawWrite postGen
      ⟨o.result, some (stageWrite buf b0), o.rawArgs, o.resetGen, true⟩
    | LockType.Rw => ⟨rawWrite pos buf, none, some (pos, buf), false, true⟩

/-- The shared state of one InnerSafeFile, as far as the registry is
concerned: the raw file resource (an id) and the lock variant fixed at
construction. -/
structure InnerFile where
  fid : Nat
  lock : LockType
deriving DecidableEq

/-- One slot of the open-file table: a weak reference, `some f` while it
still upgrades to a live file, `none` once the file was dropped. -/
abbrev WeakEntry := Option InnerFile

/-- OPEN_FILE_MAP: canonical path (an id) to weak entry. -/
abbrev Table := List (Nat × WeakEntry)

/-- HashMap::get on the open-file table. -/
def tableGet : Table → Nat → Option WeakEntry
  | [], _ => none
  | (q, w) :: rest, p => if q = p then some w else tableGet rest p

/-- HashMap entry insert on the open-file table (replaces an existing slot,
appends otherwise). -/
def tableInsert : Table → Nat → WeakEntry → Table
  | [], p, e => [(p, e)]
  | (q, w) :: rest, p, e =>
    if q = p then (p, e) :: rest else (q, w) :: tableInsert rest p e

/-- Lookup followed by Weak::upgrade: the live file registered at `p`,
if any (src/file/src/lib.rs lines 91-99). -/
def lookupLive (tab : Table) (p : Nat) : Option InnerFile :=
  match tableGet tab p with
  | some (some f) => some f
  | _ => none

/-- Result and observable effects of one SafeFile::open call: the handle or
error, the resulting table, and whether a raw open was issued. -/
structure OpenOutcome where
  result : Except Err InnerFile
  table : Table
  rawOpened : Bool

/-- SafeFile::open (src/file/src/lib.rs lines 85-128).  `tab` is the table at
the first lookup, `tab2` the table re-read after the raw open (a suspend
point during which concurrent openers may have changed it).  A live entry on
first lookup is returned as-is with no raw open; otherwise the raw open runs,
an error propagates with the table untouched, and on success the re-check
either returns a concurrent winner's live entry (discarding the new file) or
installs a weak reference to the new file and returns it. -/
def safeOpen (tab : Table) (p : Nat) (options : AsyncFileOptions)
    (rawOpen : AsyncFileOptions → Except Err Nat) (tab2 : Table) : OpenOutcome :=
  match lookupLive tab p with
  | some rr => ⟨Except.ok rr, tab, false⟩
  | none =>
    match rawOpen options with
    | Except.error e => ⟨Except.error e, tab2, true⟩
    | Except.ok fid =>
      let file : InnerFile := ⟨fid, lockTypeOf options⟩
      match tableGet tab2 p with
      | some (some rr) => ⟨Except.ok rr, tab2, true⟩
      | some none => ⟨Except.ok file, tableInsert tab2 p (some file), true⟩
      | none => ⟨Except.ok file, tableInsert tab2 p (some file), true⟩

/-- The raw async_file collaborator's maintenance operations. -/
inductive RawFsOp
  | createDir
  | removeFile
  | removeDir
  | rename
  | copyFile
  | removeDirAll
deriving DecidableEq

/-- Which collaborator operation the exposed remove_dir_all passthrough
invokes: the source (src/file/src/lib.rs lines 253-256, comment marked TODO)
forwards to async_file::remove_dir, the non-recursive removal. -/
def remove_dir_all_calls : RawFsOp := RawFsOp.removeDir

/-- Modelled from the spec: a filesystem as the list of live paths, a path
being a list of name components. -/
abbrev FsState := List (List Nat)

/-- Whether path `p` lies at or under directory `d` (component-wise). -/
def underDir : List Nat → List Nat → Bool
  | [], _ => true
  | _, [] => false
  | d :: ds, q :: qs => decide (d = q) && underDir ds qs

/-- Modelled from the spec: the collaborator's non-recursive removeDir,
which fails when the directory still has entries strictly under it. -/
def rawRemoveDir (fs : FsState) (d : List Nat) : Except Err FsState :=
  if fs.any (fun q => underDir d q && decide (q ≠ d)) then Except.error 1
  else Except.ok (fs.filter (fun q => decide (q ≠ d)))

/-- Modelled from the spec: the collaborator's recursive removeDirAll, which
removes the directory and everything under it. -/
def rawRemoveDirAll (fs : FsState) (d : List Nat) : Except Err FsState :=
  Except.ok (fs.filter (fun q => !underDir d q))

/-- The directory-removal semantics of the operation a passthrough forwards
to (the other maintenance operations do not act on directory trees here). -/
def runFsOp (op : RawFsOp) (fs : FsState) (d : List Nat) : Except Err FsState :=
  match op with
  | RawFsOp.removeDir => rawRemoveDir fs d
  | RawFsOp.removeDirAll => rawRemoveDirAll fs d
  | _ => Except.ok fs

/-- The in-memory BTreeMap of the store, as an association list with unique
keys (keys and values are byte strings). -/
abbrev KVMap := List (List Nat × List Nat)

/-- BTreeMap::get. -/
def mapLookup : KVMap → List Nat → Option (List Nat)
  | [], _ => none
  | (q, w) :: rest, k => if q = k then some w else mapLookup rest k

/-- BTreeMap::insert (replaces the slot of an existing key). -/
def mapInsert : KVMap → List Nat → List Nat → KVMap
  | [], k, v => [(k, v)]
  | (q, w) :: rest, k, v =>
    if q = k then (k, v) :: rest else (q, w) :: mapInsert rest k v

/-- BTreeMap::remove (drops the slot of the key, if present). -/
def mapErase : KVMap → List Nat → KVMap
  | [], _ => []
  | (q, w) :: rest, k => if q = k then rest else (q, w) :: mapErase rest k

/-- One record of the append-only log: key bytes plus the value bytes for a
PlainAppend, or no value for a Remove tombstone. -/
structure LogRecord where
  key : List Nat
  value : Option (List Nat)
deriving DecidableEq

/-- The observable state of one AsyncStore: the in-memory map and the log
records appended so far, newest first. -/
structure StoreState where
  map : KVMap
  log : List LogRecord
deriving DecidableEq

/-- AsyncStore::read (src/rt_store/src/lib.rs lines 70-75): a pure
in-memory lookup. -/
def storeRead (st : StoreState) (k : List Nat) : Option (List Nat) :=
  mapLookup st.map k

/-- AsyncStore::write (src/rt_store/src/lib.rs lines 88-103).  The Put
record is appended to the log unconditionally; `commit` is the outcome of
delay_commit.  On commit failure the error is returned and the map is left
alone; on success the pair is inserted and the previous value returned. -/
def storeWrite (st : StoreState) (k v : List Nat) (commit : Except Err Unit) :
    Except Err (Option (List Nat)) × StoreState :=
  let appended : List LogRecord := ⟨k, some v⟩ :: st.log
  match commit with
  | Except.error e => (Except.error e, ⟨st.map, appended⟩)
  | Except.ok _ => (Except.ok (mapLookup st.map k), ⟨mapInsert st.map k v, appended⟩)

/-- AsyncStore::remove (src/rt_store/src/lib.rs lines 106-117).  The
tombstone (key only) is appended unconditionally; on commit failure the
error is returned and the map is left alone; on success the key is erased
and the removed value returned. -/
def storeRemove (st : StoreState) (k : List Nat) (commit : Except Err Unit) :
    Except Err (Option (List Nat)) × StoreState :=
  let appended : List LogRecord := ⟨k, none⟩ :: st.log
  match commit with
  | Except.error e => (Except.error e, ⟨st.map, appended⟩)
  | Except.ok _ => (Except.ok (mapLookup st.map k), ⟨mapErase st.map k, appended⟩)

/-- The transient state of StoreOpen during replay: the table being built
and the set of keys already seen removed. -/
structure ReplayState where
  map : KVMap
  removed : List (List Nat)
deriving DecidableEq

/-- PairLoader::is_require for StoreOpen (src/rt_store/src/lib.rs lines
138-145): a key is required iff it is neither in the removed set nor in the
table being built. -/
def isRequire (s : ReplayState) (k : List Nat) : Bool :=
  !(decide (k ∈ s.removed)) && !(mapLookup s.map k).isSome

/-- PairLoader::load for StoreOpen (src/rt_store/src/lib.rs lines 149-159):
a record with a value is inserted into the table, a tombstone puts its key
into the removed set. -/
def loadRecord (s : ReplayState) (r : LogRecord) : ReplayState :=
  match r.value with
  | some v => ⟨mapInsert s.map r.key v, s.removed⟩
  | none => ⟨s.map, r.key :: s.removed⟩

/-- One step of the newest-to-oldest replay driven by LogFile::load: the
record is delivered to `load` exactly when is_require answers true. -/
def replayStep (s : ReplayState) (r : LogRecord) : ReplayState :=
  if isRequire s r.key then loadRecord s r else s

/-- The whole replay pass of AsyncStore::open over the log records listed
newest first, starting from an empty table and an empty removed set. -/
def replay (rs : List LogRecord) : ReplayState :=
  rs.foldl replayStep ⟨[], []⟩

/-- The first (newest) record for a key in a newest-first record list. -/
def firstRecordFor (rs : List LogRecord) (k : List Nat) : Option LogRecord :=
  rs.find? (fun r => decide (r.key = k))

/-! ### Association-list lemmas for the store table -/

theorem mapLookup_insert_self (m : KVMap) (k v : List Nat) :
    mapLookup (mapInsert m k v) k = some v := by
  induction m with
  | nil => simp [mapInsert, mapLookup]
  | cons hd t ih =>
    obtain ⟨a, b⟩ := hd
    by_cases ha : a = k
    · simp [mapInsert, ha, mapLookup]
    · simp [mapInsert, ha, mapLookup, ih]

theorem mapLookup_insert_ne (m : KVMap) (v : List Nat) {q k : List Nat}
    (hne : q ≠ k) : mapLookup (mapInsert m q v) k = mapLookup m k := by
  induction m with
  | nil => simp [mapInsert, mapLookup, hne]
  | cons hd t ih =>
    obtain ⟨a, b⟩ := hd
    by_cases ha : a = q
    · subst ha
      simp [mapInsert, mapLookup, hne]
    · by_cases hak : a = k
      · subst hak
        simp [mapInsert, ha, mapLookup]
      · simp [mapInsert, ha, mapLookup, hak, ih]

theorem mapLookup_eq_none_of_not_mem (m : KVMap) {k : List Nat}
    (h : k ∉ m.map Prod.fst) : mapLookup m k = none := by
  induction m with
  | nil => rfl
  | cons hd t ih =>
    obtain ⟨a, b⟩ := hd
    rw [List.map_cons, List.mem_cons] at h
    push_neg at h
    obtain ⟨h1, h2⟩ := h
    simp [mapLookup, Ne.symm h1, ih h2]

theorem mapLookup_erase_self (m : KVMap) {k : List Nat}
    (hnd : (m.map Prod.fst).Nodup) : mapLookup (mapErase m k) k = none := by
  induction m with
  | nil => rfl
  | cons hd t ih =>
    obtain ⟨a, b⟩ := hd
    rw [List.map_cons, List.nodup_cons] at hnd
    obtain ⟨hna, hndt⟩ := hnd
    by_cases ha : a = k
    · subst ha
      simp only [mapErase, if_pos rfl]
      exact mapLookup_eq_none_of_not_mem t hna
    · simp [mapErase, ha, mapLookup, ih hndt]

/-! ### Replay lemmas -/

theorem isRequire_iff (s : ReplayState) (k : List Nat) :
    isRequire s k = true ↔ (k ∉ s.removed ∧ mapLookup s.map k = none) := by
  unfold isRequire
  cases h : mapLookup s.map k <;> by_cases hk : k ∈ s.removed <;> simp [h, hk]

theorem replayStep_other_key (s : ReplayState) (r : LogRecord) (k : List Nat)
    (hne : r.key ≠ k) :
    mapLookup (replayStep s r).map k = mapLookup s.map k
    ∧ (k ∈ (replayStep s r).removed ↔ k ∈ s.removed) := by
  unfold replayStep
  by_cases hreq : isRequire s r.key = true
  · rw [if_pos hreq]
    cases hv : r.value with
    | some v =>
      constructor
      · simp only [loadRecord, hv]
        exact mapLookup_insert_ne s.map v hne
      · simp [loadRecord, hv]
    | none =>
      constructor
      · simp [loadRecord, hv]
      · simp [loadRecord, hv, Ne.symm hne]
  · rw [if_neg hreq]
    exact ⟨rfl, Iff.rfl⟩

theorem replayStep_resolved (s : ReplayState) (r : LogRecord) (k : List Nat)
    (hres : isRequire s k = false) :
    mapLookup (replayStep s r).map k = mapLookup s.map k
    ∧ (k ∈ (replayStep s r).removed ↔ k ∈ s.removed) := by
  by_cases hrk : r.key = k
  · subst hrk
    simp [replayStep, hres]
  · exact replayStep_other_key s r k hrk

theorem isRequire_congr (s s' : ReplayState) (k : List Nat)
    (hm : mapLookup s'.map k = mapLookup s.map k)
    (hr : k ∈ s'.removed ↔ k ∈ s.removed) :
    isRequire s' k = isRequire s k := by
  unfold isRequire
  rw [hm, decide_eq_decide.mpr hr]

theorem foldl_replay_resolved (rs : List LogRecord) (s : ReplayState)
    (k : List Nat) (hres : isRequire s k = false) :
    mapLookup (rs.foldl replayStep s).map k = mapLookup s.map k
    ∧ (k ∈ (rs.foldl replayStep s).removed ↔ k ∈ s.removed) := by
  induction rs generalizing s with
  | nil => exact ⟨rfl, Iff.rfl⟩
  | cons r rest ih =>
    have hstep := replayStep_resolved s r k hres
    have hres' : isRequire (replayStep s r) k = false := by
      rw [isRequire_congr s (replayStep s r) k hstep.1 hstep.2]
      exact hres
    have hrest := ih (replayStep s r) hres'
    rw [List.foldl_cons]
    exact ⟨hrest.1.trans hstep.1, hrest.2.trans hstep.2⟩

theorem foldl_replay_unresolved (rs : List LogRecord) (s : ReplayState)
    (k : List Nat) (hreq : isRequire s k = true) :
    mapLookup (rs.foldl replayStep s).map k
        = (firstRecordFor rs k).bind (fun r => r.value)
    ∧ (k ∈ (rs.foldl replayStep s).removed
        ↔ ∃ r, firstRecordFor rs k = some r ∧ r.value = none) := by
  induction rs generalizing s with
  | nil =>
    obtain ⟨hrem, hm⟩ := (isRequire_iff s k).mp hreq
    constructor
    · simpa [firstRecordFor] using hm
    · simp [firstRecordFor, hrem]
  | cons r rest ih =>
    rw [List.foldl_cons]
    by_cases hrk : r.key = k
    · have hreqr : isRequire s r.key = true := by rw [hrk]; exact hreq
      have hstep : replayStep s r = loadRecord s r := by
        simp [replayStep, hreqr]
      have hfirst : firstRecordFor (r :: rest) k = some r :=
        List.find?_cons_of_pos rest (by simp [hrk])
      obtain ⟨hrem, hm⟩ := (isRequire_iff s k).mp hreq
      rw [hstep]
      cases hv : r.value with
      | some v =>
        have hres : isRequire (loadRecord s r) k = false := by
          have : mapLookup (loadRecord s r).map k = some v := by
            simp only [loadRecord, hv]
            rw [hrk]
            exact mapLookup_insert_self s.map k v
          simp [isRequire, this]
        have hfold := foldl_replay_resolved rest (loadRecord s r) k hres
        constructor
        · rw [hfold.1]
          simp only [loadRecord, hv, hfirst, Option.some_bind]
          rw [hrk]
          exact mapLookup_insert_self s.map k v
        · rw [hfold.2]
          simp only [loadRecord, hv, hfirst]
          constructor
          · intro hmem
            exact absurd hmem hrem
          · rintro ⟨r', hr', hval⟩
            cases hr'
            rw [hv] at hval
            cases hval
      | none =>
        have hres : isRequire (loadRecord s r) k = false := by
          have : k ∈ (loadRecord s r).removed := by
            simp [loadRecord, hv, hrk]
          simp [isRequire, this]
        have hfold := foldl_replay_resolved rest (loadRecord s r) k hres
        constructor
        · rw [hfold.1]
          simp only [loadRecord, hv, hfirst, Option.some_bind]
          exact hm
        · rw [hfold.2]
          simp only [loadRecord, hv, hfirst]
          constructor
          · intro _
            exact ⟨r, rfl, hv⟩
          · intro _
            simp [hrk]
    · have hpres := replayStep_other_key s r k hrk
      have hreq' : isRequire (replayStep s r) k = true := by
        rw [isRequire_congr s (replayStep s r) k hpres.1 hpres.2]
        exact hreq
      have hfirst : firstRecordFor (r :: rest) k = firstRecordFor rest k :=
        List.find?_cons_of_neg rest (by simp [hrk])
      rw [hfirst]
      exact ih (replayStep s r) hreq'

/-!
### Inversion lemmas for the open-file registry
-/

theorem tableGet_of_lookupLive_some (tab : Table) (p : Nat) (f : InnerFile)
    (h : lookupLive tab p = some f) : tableGet tab p = some (some f) := by
  unfold lookupLive at h
  cases htg : tableGet tab p with
  | none => rw [htg] at h; exact absurd h (by simp)
  | some w =>
    cases w with
    | none => rw [htg] at h; exact absurd h (by simp)
    | some g =>
      rw [htg] at h
      simp only at h
      rw [Option.some_inj] at h
      rw [h]

theorem tableGet_of_lookupLive_none (tab : Table) (p : Nat)
    (h : lookupLive tab p = none) :
    tableGet tab p = none ∨ tableGet tab p = some none := by
  unfold lookupLive at h
  cases htg : tableGet tab p with
  | none => exact Or.inl rfl
  | some w =>
    cases w with
    | none => exact Or.inr rfl
    | some g => rw [htg] at h; exact absurd h (by simp)

/-!
### Claim theorems
-/

/-- Claim C1 (code evaluation at the failing input): on an Exclusive-mode
handle whose write buffer stages the bytes [1, 2, 3] at generation 1, a
read of 2 bytes from position 0 returns Ok of the empty byte string — not
the staged bytes restricted to the requested range, which would be
[1, 2] — while issuing no raw read and taking the serializer. -/
theorem read_truncate_staged_returns_empty :
    safeRead LockType.Lock ⟨[1, 2, 3], 1⟩ (fun _ _ => Except.ok [7, 7]) 0 2
      = ⟨Except.ok [], false, true⟩ := rfl

/-- Claim C2: when the log commit awaited by write or remove fails, the
operation returns the commit error unchanged and the in-memory table is
exactly the table from before the call. -/
theorem failed_commit_leaves_table_unchanged (st : StoreState)
    (k v : List Nat) (e : Err) :
    (storeWrite st k v (Except.error e)).1 = Except.error e
    ∧ (storeWrite st k v (Except.error e)).2.map = st.map
    ∧ (storeRemove st k (Except.error e)).1 = Except.error e
    ∧ (storeRemove st k (Except.error e)).2.map = st.map :=
  ⟨rfl, rfl, rfl, rfl⟩

/-- Claim C3: over the newest-first record list, replay resolves every key
by the first record encountered for it: the final table holds exactly that
record's value when it carries one, the key lands in the removed set exactly
when that record is a tombstone (so the key is absent from the table), and
keys with no record stay absent; older records never contribute.  A record
is delivered to load exactly when is_require answers that the key is neither
in the table being built nor in the removed set. -/
theorem replay_first_record_wins (rs : List LogRecord) (k : List Nat) :
    mapLookup (replay rs).map k = (firstRecordFor rs k).bind (fun r => r.value)
    ∧ (k ∈ (replay rs).removed
        ↔ ∃ r, firstRecordFor rs k = some r ∧ r.value = none)
    ∧ (∀ s : ReplayState,
        isRequire s k = true ↔ (k ∉ s.removed ∧ mapLookup s.map k = none)) := by
  have h0 : isRequire ⟨[], []⟩ k = true := by
    rw [isRequire_iff]
    exact ⟨by simp, rfl⟩
  have h := foldl_replay_unresolved rs ⟨[], []⟩ k h0
  exact ⟨h.1, h.2, fun s => isRequire_iff s k⟩

/-- Claim C4: an exclusive-mode write of non-empty bytes stages the bytes
with the generation incremented; after the serializer is acquired, a zero
re-read generation short-circuits with Ok of the staged buffer's length and
no raw write, while a nonzero generation raw-writes the re-read buffer bytes
at the requested position and, on success, returns the raw byte count and
resets the generation exactly when the post-write generation still equals
the one observed before the flush. -/
theorem exclusive_write_stages_and_flushes (pos : Nat) (buf : List Nat)
    (b0 acq : Buff) (rawWrite : Nat → List Nat → Except Err Nat)
    (postGen : Nat) (hbuf : buf ≠ []) :
    (safeWrite LockType.Lock pos buf b0 acq rawWrite postGen).staged
        = some ⟨buf, b0.gen + 1⟩
    ∧ (acq.gen = 0 →
        safeWrite LockType.Lock pos buf b0 acq rawWrite postGen
          = ⟨Except.ok acq.bytes.length, some ⟨buf, b0.gen + 1⟩, none,
              false, true⟩)
    ∧ (∀ r, acq.gen ≠ 0 → rawWrite pos acq.bytes = Except.ok r →
        safeWrite LockType.Lock pos buf b0 acq rawWrite postGen
          = ⟨Except.ok r, some ⟨buf, b0.gen + 1⟩, some (pos, acq.bytes),
              decide (postGen = acq.gen), true⟩) := by
  have hb : ¬buf.length = 0 := fun h => hbuf (List.length_eq_zero.mp h)
  refine ⟨?_, fun h0 => ?_, fun r hg hok => ?_⟩
  · simp [safeWrite, hb, stageWrite]
  · simp [safeWrite, hb, exclusiveFlush, h0, stageWrite]
  · simp [safeWrite, hb, exclusiveFlush, hg, hok, stageWrite]

/-- Witness for the exclusive-write theorem: a write of [5] staged over an
empty durable buffer, flushed while the buffer reads ([5], 1) and still at
generation 1 after the raw write succeeds with count 3. -/
theorem exclusive_write_stages_and_flushes_witness :
    safeWrite LockType.Lock 0 [5] ⟨[], 0⟩ ⟨[5], 1⟩ (fun _ _ => Except.ok 3) 1
      = ⟨Except.ok 3, some ⟨[5], 1⟩, some (0, [5]), true, true⟩ :=
  (exclusive_write_stages_and_flushes 0 [5] ⟨[], 0⟩ ⟨[5], 1⟩
    (fun _ _ => Except.ok 3) 1 (by decide)).2.2 3 (by decide) rfl

/-- Claim C5: when the first registry lookup finds no live entry, a raw-open
failure propagates unchanged with no entry installed; on raw-open success,
a live entry installed concurrently in the meantime is returned as the
winner with the table left as found (the fresh resource is discarded), and
otherwise a weak reference to the fresh file is installed and the fresh
handle returned. -/
theorem open_miss_recheck (tab tab2 : Table) (p : Nat)
    (o : AsyncFileOptions) (rawOpen : AsyncFileOptions → Except Err Nat)
    (hmiss : lookupLive tab p = none) :
    (∀ e, rawOpen o = Except.error e →
      safeOpen tab p o rawOpen tab2 = ⟨Except.error e, tab2, true⟩)
    ∧ (∀ fid rr, rawOpen o = Except.ok fid → lookupLive tab2 p = some rr →
      safeOpen tab p o rawOpen tab2 = ⟨Except.ok rr, tab2, true⟩)
    ∧ (∀ fid, rawOpen o = Except.ok fid → lookupLive tab2 p = none →
      safeOpen tab p o rawOpen tab2
        = ⟨Except.ok ⟨fid, lockTypeOf o⟩,
            tableInsert tab2 p (some ⟨fid, lockTypeOf o⟩), true⟩) := by
  refine ⟨fun e he => ?_, fun fid rr hok hlive => ?_, fun fid hok hdead => ?_⟩
  · simp [safeOpen, hmiss, he]
  · have h2 := tableGet_of_lookupLive_some tab2 p rr hlive
    simp [safeOpen, hmiss, hok, h2]
  · rcases tableGet_of_lookupLive_none tab2 p hdead with h2 | h2 <;>
      simp [safeOpen, hmiss, hok, h2]

/-- Witness for the open-after-miss theorem: an open of path 0 in truncate
mode against an empty registry, whose raw open yields file 7 and whose
re-check still finds no live entry, installs and returns the fresh file. -/
theorem open_miss_recheck_witness :
    safeOpen [] 0 AsyncFileOptions.TruncateWrite (fun _ => Except.ok 7) []
      = ⟨Except.ok ⟨7, LockType.Lock⟩, [(0, some ⟨7, LockType.Lock⟩)], true⟩ :=
  (open_miss_recheck [] [] 0 AsyncFileOptions.TruncateWrite
    (fun _ => Except.ok 7) rfl).2.2 7 rfl rfl

/-- Claim C6: with a duplicate-free table, a committed write makes a
subsequent read return the written value and itself returns Ok of the value
previously stored at the key (or none), and a committed remove makes a
subsequent read return none and itself returns Ok of the removed value
(or none). -/
theorem write_read_remove_roundtrip (st : StoreState) (k v : List Nat)
    (hnd : (st.map.map Prod.fst).Nodup) :
    (storeWrite st k v (Except.ok ())).1 = Except.ok (storeRead st k)
    ∧ storeRead (storeWrite st k v (Except.ok ())).2 k = some v
    ∧ (storeRemove st k (Except.ok ())).1 = Except.ok (storeRead st k)
    ∧ storeRead (storeRemove st k (Except.ok ())).2 k = none := by
  refine ⟨rfl, ?_, rfl, ?_⟩
  · show mapLookup (mapInsert st.map k v) k = some v
    exact mapLookup_insert_self st.map k v
  · show mapLookup (mapErase st.map k) k = none
    exact mapLookup_erase_self st.map hnd

/-- Witness for the write/read/remove theorem: a store whose table maps
key [1] to [2]; writing [9] at [1] is then read back, and removing [1]
leaves it absent. -/
theorem write_read_remove_roundtrip_witness :
    storeRead (storeWrite ⟨[([1], [2])], []⟩ [1] [9] (Except.ok ())).2 [1]
        = some [9]
    ∧ storeRead (storeRemove ⟨[([1], [2])], []⟩ [1] (Except.ok ())).2 [1]
        = none :=
  ⟨(write_read_remove_roundtrip ⟨[([1], [2])], []⟩ [1] [9] (by decide)).2.1,
   (write_read_remove_roundtrip ⟨[([1], [2])], []⟩ [1] [9] (by decide)).2.2.2⟩

/-- Claim C7 (code evaluation at the failing input): the exposed
remove_dir_all forwards to the collaborator's non-recursive removeDir, so
on a filesystem holding directory [0] and the entry [0, 1] under it the
call fails, while the recursive removeDirAll named by the claim would have
emptied the tree. -/
theorem remove_dir_all_not_recursive :
    remove_dir_all_calls = RawFsOp.removeDir
    ∧ runFsOp remove_dir_all_calls [[0], [0, 1]] [0] = Except.error 1
    ∧ rawRemoveDirAll [[0], [0, 1]] [0] = Except.ok [] :=
  ⟨rfl, rfl, rfl⟩

/-- Claim C8: a zero-length read returns Ok of the empty byte string with
no raw read and no lock acquisition, and an empty-bytes write returns Ok 0
with no staging, no raw write, and no lock acquisition — in both lock
modes and for every buffer and raw-I/O behaviour. -/
theorem zero_length_noops (lt : LockType) (b b0 acq : Buff)
    (rawRead : Nat → Nat → Except Err (List Nat))
    (rawWrite : Nat → List Nat → Except Err Nat) (pos postGen : Nat) :
    safeRead lt b rawRead pos 0 = ⟨Except.ok [], false, false⟩
    ∧ safeWrite lt pos [] b0 acq rawWrite postGen
        = ⟨Except.ok 0, none, none, false, false⟩ :=
  ⟨rfl, rfl⟩

/-- Claim C9: a live registry entry short-circuits open: the existing
shared state is returned for every options argument and every raw-open
behaviour, no raw open is issued and the table is untouched, so the lock
variant in force stays the one fixed when that entry's file was first
opened. -/
theorem open_live_entry_aliases (tab : Table) (p : Nat) (f : InnerFile)
    (hlive : lookupLive tab p = some f) (o : AsyncFileOptions)
    (rawOpen : AsyncFileOptions → Except Err Nat) (tab2 : Table) :
    safeOpen tab p o rawOpen tab2 = ⟨Except.ok f, tab, false⟩ := by
  simp [safeOpen, hlive]

/-- Witness for the live-entry theorem: path 0 is registered with a live
exclusive-mode file 3; an open requesting read-only mode (which would pick
the reader-writer lock) still returns the registered file with its
exclusive lock variant and no raw open. -/
theorem open_live_entry_aliases_witness :
    safeOpen [(0, some ⟨3, LockType.Lock⟩)] 0 AsyncFileOptions.OnlyRead
        (fun _ => Except.error 4) []
      = ⟨Except.ok ⟨3, LockType.Lock⟩, [(0, some ⟨3, LockType.Lock⟩)],
          false⟩ :=
  open_live_entry_aliases [(0, some ⟨3, LockType.Lock⟩)] 0
    ⟨3, LockType.Lock⟩ rfl AsyncFileOptions.OnlyRead
    (fun _ => Except.error 4) []

/-- Claim C10: removing a key absent from the table still appends the
tombstone record to the log whatever the commit outcome, returns Ok none
when the commit succeeds, and returns the error unchanged when it fails. -/
theorem remove_absent_key_appends (st : StoreState) (k : List Nat)
    (habs : mapLookup st.map k = none) :
    (∀ c : Except Err Unit,
      (storeRemove st k c).2.log = (⟨k, none⟩ : LogRecord) :: st.log)
    ∧ (storeRemove st k (Except.ok ())).1 = Except.ok none
    ∧ (∀ e : Err, (storeRemove st k (Except.error e)).1 = Except.error e) := by
  refine ⟨fun c => ?_, ?_, fun e => rfl⟩
  · cases c <;> rfl
  · show Except.ok (mapLookup st.map k) = Except.ok none
    rw [habs]

/-- Witness for the absent-key remove theorem: removing key [2] from an
empty store returns Ok none. -/
theorem remove_absent_key_appends_witness :
    (storeRemove ⟨[], []⟩ [2] (Except.ok ())).1 = Except.ok none :=
  (remove_absent_key_appends ⟨[], []⟩ [2] rfl).2.1
